import Mathlib

/-!
A verification development for the order-customization and cart-state engine of
the customer self-order page (the script around `menuConfigs` / `orderState`).

Modelling conventions:
* JavaScript `Map` objects are modelled as insertion-ordered association lists
  (`List (key × value)`); `Map.get`/`Map.set`/`Map.delete` become first-match
  lookup, in-place replace-or-append, and first-match removal.
* JavaScript numbers are modelled as rationals (`ℚ`); `Number(x.toFixed(2))`
  becomes `round2`, rounding to an integer number of cents with ties going up,
  exactly as `toFixed` picks the larger candidate integer on a tie.
* Identifier values (menu item ids, group ids, option ids) are modelled as the
  strings they are interpolated to by template literals and `String(...)`.
* String sorting (`Array.prototype.sort` with no comparator) is code-unit
  lexicographic comparison; `charListLe` implements that order on the
  underlying character lists.
-/

namespace POS

/-- An option inside an option group: `{ id, name, price }`.  (Named
`MenuOption` to avoid clashing with Lean's `Option`.) -/
structure MenuOption where
  id : String
  name : String
  price : ℚ
deriving DecidableEq

/-- `selection_type` of a group.  The page compares against the string
`"single"`; every other value takes the multiple-selection code path. -/
inductive SelectionType where
  | single
  | multiple
deriving DecidableEq

/-- An option group of a menu item: `{ id, name, selection_type, is_required,
options }`. -/
structure OptionGroup where
  id : String
  name : String
  selection_type : SelectionType
  is_required : Bool
  options : List MenuOption
deriving DecidableEq

/-- One entry of `modalState.selections`: either
`{type:"single", groupName, option}` or `{type:"multiple", groupName, options}`
where `options` is a `Map` from stringified option id to option data. -/
inductive Selection where
  | single (groupName : String) (choice : Option MenuOption)
  | multiple (groupName : String) (options : List (String × MenuOption))
deriving DecidableEq

/-- `modalState.selections`: a `Map` from group id to `Selection`. -/
abbrev SelectionState := List (String × Selection)

/-- `Array.prototype.join(sep)`. -/
def joinSep (sep : String) : List String → String
  | [] => ""
  | [s] => s
  | s :: rest => s ++ sep ++ joinSep sep rest

/-- Code-unit lexicographic comparison on character lists, the order used by
JavaScript's default `Array.prototype.sort` on strings. -/
def charListLe : List Char → List Char → Bool
  | [], _ => true
  | _ :: _, [] => false
  | a :: as, b :: bs => if a < b then true else if b < a then false else charListLe as bs

/-- Lexicographic `≤` on strings (via their character data). -/
def strLe (a b : String) : Prop := charListLe a.data b.data = true

instance : DecidableRel strLe := fun a b => by
  unfold strLe; infer_instance

/-- `Array.prototype.sort()` on an array of strings. -/
def sortStrings (l : List String) : List String := l.insertionSort strLe

/-- The `"groupId:fragment"` fragment that `buildOptionKeyFromSelections`
pushes for one group: single → chosen option id or `"none"`; multiple →
sorted, hyphen-joined chosen option ids, or `"none"` when empty. -/
def selectionFragment : Selection → String
  | .single _ none => "none"
  | .single _ (some o) => o.id
  | .multiple _ opts =>
      let ids := sortStrings (opts.map Prod.fst)
      if ids.isEmpty then "none" else joinSep "-" ids

/-- One `parts` element: `` `${groupId}:${fragment}` ``. -/
def groupPart (groupId : String) (sel : Selection) : String :=
  groupId ++ ":" ++ selectionFragment sel

/-- `buildOptionKeyFromSelections(selections)`: `"base"` for an empty
selection map, otherwise the lexicographically sorted group fragments joined
with `"|"` (falling back to `"base"` if the join is the empty string). -/
def buildOptionKeyFromSelections (sels : SelectionState) : String :=
  if sels.isEmpty then "base"
  else
    let parts := sels.map fun p => groupPart p.1 p.2
    let key := joinSep "|" (sortStrings parts)
    if key = "" then "base" else key

/-- `buildItemKey(menuItemId, optionKey)`: `` `${menuItemId}::${optionKey}` ``. -/
def buildItemKey (menuItemId : String) (optionKey : String) : String :=
  menuItemId ++ "::" ++ optionKey

/-- `Number(x.toFixed(2))`: round to two decimal places; on a tie `toFixed`
picks the larger candidate, i.e. rounds towards `+∞`. -/
def round2 (q : ℚ) : ℚ := (⌊q * 100 + 1 / 2⌋ : ℚ) / 100

/-- The price contributed by one selection entry inside the
`selections.forEach` of `calculateUnitPrice`. -/
def selectionPrice : Selection → ℚ
  | .single _ none => 0
  | .single _ (some o) => o.price
  | .multiple _ opts => (opts.map fun p => p.2.price).sum

/-- `calculateUnitPrice(basePrice, selections)`: base price plus all selected
option prices, then `Number(total.toFixed(2))`. -/
def calculateUnitPrice (basePrice : ℚ) (sels : SelectionState) : ℚ :=
  round2 (basePrice + (sels.map fun p => selectionPrice p.2).sum)

/-- Left-pads the cents part of a formatted amount to two digits. -/
def pad2 (n : Int) : String :=
  if n < 10 then "0" ++ toString n else toString n

/-- `formatCurrency(value)`: `Number(value || 0).toFixed(2)` as a string.
`toFixed` rounds towards `+∞` on ties, so the rounded cent count is
`⌊100·v + 1/2⌋`. -/
def formatCurrency (v : ℚ) : String :=
  let n : Int := ⌊v * 100 + 1 / 2⌋
  if n < 0 then "-" ++ toString (-n / 100) ++ "." ++ pad2 (-n % 100)
  else toString (n / 100) ++ "." ++ pad2 (n % 100)

/-- `formatOptionLabel(option)`: append `(+price ฿)` for positive prices. -/
def formatOptionLabel (o : MenuOption) : String :=
  if o.price > 0 then o.name ++ " (+" ++ formatCurrency o.price ++ " ฿)" else o.name

/-- The contribution of one selection entry to `buildSelectionNote`. -/
def selectionNotePart : Selection → Option String
  | .single gname choice =>
      choice.map fun o => gname ++ ": " ++ formatOptionLabel o
  | .multiple gname opts =>
      if opts.isEmpty then none
      else some (gname ++ ": " ++ joinSep ", " (opts.map fun p => formatOptionLabel p.2))

/-- `buildSelectionNote(selections)`. -/
def buildSelectionNote (sels : SelectionState) : Option String :=
  if sels.isEmpty then none
  else
    let parts := (sels.map fun p => selectionNotePart p.2).reduceOption
    if parts.isEmpty then none else some (joinSep " | " parts)

/-- `cloneSelectionState(selections)`: a deep copy of the selection map. -/
def cloneSelectionState (sels : SelectionState) : SelectionState :=
  sels.map fun p =>
    (p.1,
      match p.2 with
      | .single gname choice =>
          .single gname (choice.map fun o => { id := o.id, name := o.name, price := o.price })
      | .multiple gname opts =>
          .multiple gname
            (opts.map fun q => (q.1, { id := q.2.id, name := q.2.name, price := q.2.price })))

/-- A cart entry stored in the `orderState` map. -/
structure CartLineItem where
  key : String
  menuItemId : String
  name : String
  unitPrice : ℚ
  quantity : Int
  note : Option String
  selections : Option SelectionState
deriving DecidableEq

/-- The `orderState` map: keyed by `CartLineItem.key`, in insertion order. -/
abbrev Cart := List CartLineItem

/-- The keys of the cart entries, in order. -/
def cartKeys (cart : Cart) : List String := cart.map CartLineItem.key

/-- `upsertOrderItem(item)`: `orderState.get(item.key)` and increment the
existing entry's quantity in place, else `orderState.set(item.key, item)`
(which appends). -/
def upsertOrderItem : Cart → CartLineItem → Cart
  | [], item => [item]
  | entry :: rest, item =>
      if entry.key = item.key then
        { entry with quantity := entry.quantity + item.quantity } :: rest
      else entry :: upsertOrderItem rest item

/-- `updateQuantity(itemKey, delta)`: no-op when the key is absent; otherwise
add `delta` to the entry's quantity and delete the entry when the result is
`≤ 0`. -/
def updateQuantity : Cart → String → Int → Cart
  | [], _, _ => []
  | entry :: rest, itemKey, delta =>
      if entry.key = itemKey then
        if entry.quantity + delta ≤ 0 then rest
        else { entry with quantity := entry.quantity + delta } :: rest
      else entry :: updateQuantity rest itemKey delta

/-- `modalState.specialInfo`: `{ label, price }` (from
`special.label` / `Number(special.price_delta || 0)`). -/
structure SpecialInfo where
  label : String
  price : ℚ
deriving DecidableEq

/-- The customization-session state `modalState` (the fields the cart engine
reads; DOM-only fields such as the image are omitted). -/
structure ModalState where
  menuItemId : String
  name : String
  basePrice : ℚ
  quantity : Int
  groups : List OptionGroup
  selections : SelectionState
  currentUnitPrice : Option ℚ
  specialInfo : Option SpecialInfo
  specialSelected : Bool
deriving DecidableEq

/-- `updateModalSummary()`: recompute `modalState.currentUnitPrice` as
`calculateUnitPrice(basePrice, selections)` plus the special price when
`specialInfo` exists and `specialSelected`, then `Number(·.toFixed(2))`. -/
def updateModalSummary (ms : ModalState) : ModalState :=
  let base := calculateUnitPrice ms.basePrice ms.selections
  let withSpecial :=
    match ms.specialInfo with
    | some info => if ms.specialSelected then base + info.price else base
    | none => base
  { ms with currentUnitPrice := some (round2 withSpecial) }

/-- `buildSpecialNote(state)`. -/
def buildSpecialNote (ms : ModalState) : Option String :=
  match ms.specialInfo with
  | some info =>
      if ms.specialSelected then
        some (info.label ++ " (+" ++ formatCurrency info.price ++ " ฿)")
      else none
  | none => none

/-- The `CartLineItem` that `addCustomizedItem(state)` builds and passes to
`upsertOrderItem`: the key combines the menu item id with the canonical option
key, the unit price is `state.currentUnitPrice ?? calculateUnitPrice(...)`,
and the note joins the selection note and the special note with `" | "`. -/
def customItemOf (ms : ModalState) : CartLineItem :=
  let optionKey := buildOptionKeyFromSelections ms.selections
  let key := buildItemKey ms.menuItemId optionKey
  let unitPrice := ms.currentUnitPrice.getD (calculateUnitPrice ms.basePrice ms.selections)
  let noteParts := (buildSelectionNote ms.selections).toList ++ (buildSpecialNote ms).toList
  let note := if noteParts.isEmpty then none else some (joinSep " | " noteParts)
  { key := key, menuItemId := ms.menuItemId, name := ms.name, unitPrice := unitPrice,
    quantity := ms.quantity, note := note,
    selections := some (cloneSelectionState ms.selections) }

/-- `addCustomizedItem(state)` acting on the cart. -/
def addCustomizedItem (cart : Cart) (ms : ModalState) : Cart :=
  upsertOrderItem cart (customItemOf ms)

/-- `initializeSelections(groups)`: one entry per group; a required
single-selection group with at least one option defaults to its first option,
everything else starts unselected. -/
def initializeSelections (groups : List OptionGroup) : SelectionState :=
  groups.map fun g =>
    (g.id,
      match g.selection_type with
      | .single =>
          let choice :=
            if g.is_required then
              match g.options with
              | [] => none
              | o :: _ => some { id := o.id, name := o.name, price := o.price }
            else none
          Selection.single g.name choice
      | .multiple => Selection.multiple g.name [])

/-- `openCustomization(...)` on the code path where the item has groups or a
special option: build `modalState`, run `initializeSelections`, then
`updateModalSummary`.  (`renderGroups` re-applies the same required-single
default to the already-initialized state, so it does not change it.) -/
def openCustomization (menuItemId : String) (name : String) (basePrice : ℚ)
    (groups : List OptionGroup) (special : Option SpecialInfo) : ModalState :=
  updateModalSummary
    { menuItemId := menuItemId, name := name, basePrice := basePrice, quantity := 1,
      groups := groups, selections := initializeSelections groups,
      currentUnitPrice := some basePrice, specialInfo := special,
      specialSelected := false }

/-- `modalState.groupIndex.get(gid)` where
`groupIndex = new Map(groups.map(g => [g.id, g]))`: with a JavaScript `Map`,
a later entry with the same id overwrites an earlier one, so the lookup finds
the last matching group. -/
def groupIndexGet (groups : List OptionGroup) (gid : String) : Option OptionGroup :=
  groups.reverse.find? fun g => g.id = gid

/-- The error message for a required single-selection group with no choice. -/
def violationMsgSingle (g : OptionGroup) : String :=
  "กรุณาเลือกตัวเลือกสำหรับ " ++ g.name

/-- The error message for a required multiple-selection group with no choice. -/
def violationMsgMultiple (g : OptionGroup) : String :=
  "กรุณาเลือกอย่างน้อย 1 รายการใน " ++ g.name

/-- `validateSelections()`: walk the selection entries in order; skip entries
whose group is missing from `groupIndex` or not required; report the first
required group with an empty selection; `none` when every required group is
satisfied. -/
def validateSelections (groups : List OptionGroup) : SelectionState → Option String
  | [] => none
  | (gid, sel) :: rest =>
      match groupIndexGet groups gid with
      | none => validateSelections groups rest
      | some g =>
          if g.is_required then
            match sel with
            | .single _ none => some (violationMsgSingle g)
            | .single _ (some _) => validateSelections groups rest
            | .multiple _ opts =>
                if opts.isEmpty then some (violationMsgMultiple g)
                else validateSelections groups rest
          else validateSelections groups rest

/-- The `addBtn` click handler: validate; on an error, `alert` and return with
the modal still open and the cart untouched; otherwise commit the item via
`addCustomizedItem` and close the customization session.  The boolean is
whether the modal remains open. -/
def addBtnClick (cart : Cart) (ms : ModalState) : Cart × Bool :=
  match validateSelections ms.groups ms.selections with
  | some _ => (cart, true)
  | none => (addCustomizedItem cart ms, false)

/-- `Map.prototype.set(k, v)` on an association list: replace in place when the
key exists, else append. -/
def mapSet : List (String × MenuOption) → String → MenuOption → List (String × MenuOption)
  | [], k, v => [(k, v)]
  | (k₀, v₀) :: rest, k, v =>
      if k₀ = k then (k, v) :: rest else (k₀, v₀) :: mapSet rest k v

/-- The checked branch of the change handler for a multiple-selection group:
`selections.get(groupId)` followed by
`selection.options.set(String(optionData.id), optionData)`, i.e. an in-place
update of the (unique) entry with key `gid`. -/
def selectMultiOption : SelectionState → String → String → MenuOption → SelectionState
  | [], _, _, _ => []
  | (g, sel) :: rest, gid, optionId, o =>
      if g = gid then
        (g,
          match sel with
          | .multiple gname opts => Selection.multiple gname (mapSet opts optionId o)
          | other => other) :: rest
      else (g, sel) :: selectMultiOption rest gid optionId o

/-- The outcome of one `submitOrder()` round trip, as observed by the page:
the server accepted the order (`response.ok` and the body parsed), the server
rejected it (`!response.ok`), or the fetch / body handling threw. -/
inductive SubmitOutcome where
  | accepted
  | serverRejected
  | fetchFailed
deriving DecidableEq

/-- The page state that `submitOrder()` touches: the cart, the order-level
note field, and the status message line. -/
structure PageState where
  cart : Cart
  orderNote : String
  statusMessage : String
deriving DecidableEq

/-- The status message shown after a successful submission. -/
def submitSuccessMsg : String := "ส่งออเดอร์เรียบร้อยแล้ว ขอบคุณค่ะ!"

/-- `submitOrder()`: only after a success response does it run
`orderState.clear()` and `noteField.value = ""`; every failure path lands in
the `catch` block, which only sets the status message (`errMsg` is the
message derived from the response or error). -/
def submitOrder (st : PageState) (outcome : SubmitOutcome) (errMsg : String) : PageState :=
  match outcome with
  | .accepted => { cart := [], orderNote := "", statusMessage := submitSuccessMsg }
  | .serverRejected => { st with statusMessage := errMsg }
  | .fetchFailed => { st with statusMessage := errMsg }

/-! ### Specification-side definitions and concrete fixtures

`specUnitPrice` is written from the specification's words, to be compared with
what the code computes; the fixtures below instantiate theorems on concrete
data. -/

/-- The unit price as the specification states it: base price, plus the chosen
option prices, plus the special price delta if the toggle is on, rounded once
to 2 decimal places. -/
def specUnitPrice (basePrice : ℚ) (sels : SelectionState) (specialOn : Bool)
    (specialDelta : ℚ) : ℚ :=
  round2 (basePrice + (sels.map fun p => selectionPrice p.2).sum +
    (if specialOn then specialDelta else 0))

/-- `q` is an exact multiple of one cent. -/
def Cent (q : ℚ) : Prop := ∃ n : ℤ, q = n / 100

/-- All option prices recorded in a selection entry are cent multiples. -/
def CentSelection : Selection → Prop
  | .single _ none => True
  | .single _ (some o) => Cent o.price
  | .multiple _ opts => ∀ q ∈ opts, Cent q.2.price

/-- Set-equality of two selection entries, per the specification: same chosen
option for a single-type selection, the same set of chosen entries for a
multiple-type selection (ignoring order), and never across types. -/
def SelectionSetEq : Selection → Selection → Prop
  | .single _ c₁, .single _ c₂ => c₁ = c₂
  | .multiple _ m₁, .multiple _ m₂ => ∀ x, x ∈ m₁ ↔ x ∈ m₂
  | _, _ => False

/-- A multiple-type selection stores each chosen option id at most once (the
invariant of the `Map` backing `selection.options`). -/
def SelectionNodup : Selection → Prop
  | .single _ _ => True
  | .multiple _ opts => (opts.map Prod.fst).Nodup

/-- Every selection entry of the state satisfies `SelectionNodup`. -/
def StateNodupChosen (s : SelectionState) : Prop := ∀ p ∈ s, SelectionNodup p.2

/-- Two selection states are set-equal per group regardless of the order in
which groups were stored: some reordering of the first state matches the
second group-for-group with set-equal selections. -/
def StateSetEq (s₁ s₂ : SelectionState) : Prop :=
  ∃ t, s₁.Perm t ∧
    List.Forall₂ (fun p q => p.1 = q.1 ∧ SelectionSetEq p.2 q.2) t s₂

/-- Options used by the key-canonicality fixtures. -/
def optA : MenuOption := { id := "a", name := "A", price := 1 }

/-- Second fixture option. -/
def optB : MenuOption := { id := "b", name := "B", price := 2 }

/-- Third fixture option. -/
def optC : MenuOption := { id := "c", name := "C", price := 3 }

/-- A selection state; `selW2` stores the same choices in a different order. -/
def selW1 : SelectionState :=
  [("1", .multiple "g" [("b", optB), ("a", optA)]), ("2", .single "h" (some optC))]

/-- `selW1` with the groups reordered and the multiple map reordered. -/
def selW2 : SelectionState :=
  [("2", .single "h" (some optC)), ("1", .multiple "g" [("a", optA), ("b", optB)])]

/-- An id string as produced by stringifying the page's numeric ids
(`String(option.id)`, template-literal interpolation of `group.id`):
nonempty and consisting of decimal digits only. -/
def IsIdStr (s : String) : Prop := s ≠ "" ∧ ∀ ch ∈ s.data, ch.isDigit = true

/-- Every option id recorded in a selection entry is an id string. -/
def SelectionWF : Selection → Prop
  | .single _ none => True
  | .single _ (some o) => IsIdStr o.id
  | .multiple _ opts => ∀ q ∈ opts, IsIdStr q.1

/-- Every group id and recorded option id of the state is an id string. -/
def StateWF (s : SelectionState) : Prop := ∀ p ∈ s, IsIdStr p.1 ∧ SelectionWF p.2

/-- Two selection entries have the same selection type. -/
def SelectionSameType : Selection → Selection → Prop
  | .single _ _, .single _ _ => True
  | .multiple _ _, .multiple _ _ => True
  | _, _ => False

/-- Two states over the same menu item: the same group ids in the same stored
order (as `initializeSelections` produces for a fixed configuration), with
matching selection types per group. -/
def SameSkeleton (s₁ s₂ : SelectionState) : Prop :=
  List.Forall₂ (fun p q => p.1 = q.1 ∧ SelectionSameType p.2 q.2) s₁ s₂

/-- Aligned groups carry the same chosen option id(s): equal chosen option id
(or both unselected) for single groups, equal chosen-id sets for multiple
groups. -/
def SelectionSameChoice : Selection → Selection → Prop
  | .single _ c₁, .single _ c₂ => c₁.map MenuOption.id = c₂.map MenuOption.id
  | .multiple _ m₁, .multiple _ m₂ => ∀ k, k ∈ m₁.map Prod.fst ↔ k ∈ m₂.map Prod.fst
  | _, _ => False

/-- Group-for-group `SelectionSameChoice` over two aligned states. -/
def SameChoices (s₁ s₂ : SelectionState) : Prop :=
  List.Forall₂ (fun p q => p.1 = q.1 ∧ SelectionSameChoice p.2 q.2) s₁ s₂

/-- An option whose id is the literal string `"none"` — it collides with the
`"none"` sentinel that `buildOptionKeyFromSelections` emits for an unselected
single group. -/
def cexNoneOpt : MenuOption := { id := "none", name := "N", price := 0 }

/-- A state choosing `cexNoneOpt` in group `"1"`. -/
def cexS1 : SelectionState := [("1", .single "g" (some cexNoneOpt))]

/-- A state choosing nothing in group `"1"`. -/
def cexS2 : SelectionState := [("1", .single "g" none)]

/-- A digit-id option for the key-injectivity witness. -/
def idOpt2 : MenuOption := { id := "2", name := "x", price := 1 }

/-- A digit-id state choosing option `"2"` in group `"1"`. -/
def idS1 : SelectionState := [("1", .single "g" (some idOpt2))]

/-- A digit-id state choosing nothing in group `"1"`. -/
def idS2 : SelectionState := [("1", .single "g" none)]

/-- The specification's notion of a violated required group: a single-type
selection with no chosen option, or a multiple-type selection with an empty
chosen set. -/
def Violated : Selection → Prop
  | .single _ none => True
  | .single _ (some _) => False
  | .multiple _ opts => opts = []

/-- The error message `validateSelections` is expected to produce for a
violated group, by selection type. -/
def violationMsgFor (g : OptionGroup) : Selection → String
  | .single _ _ => violationMsgSingle g
  | .multiple _ _ => violationMsgMultiple g

/-- A plain uncustomized cart entry used to instantiate the hypotheses of the
cart theorems on concrete data. -/
def itemA : CartLineItem :=
  { key := "1::base", menuItemId := "1", name := "A", unitPrice := 50,
    quantity := 1, note := none, selections := none }

/-- A second entry sharing `itemA`'s key, with a different quantity. -/
def itemB : CartLineItem :=
  { key := "1::base", menuItemId := "1", name := "A", unitPrice := 50,
    quantity := 2, note := none, selections := none }

/-- A modal state with sub-cent prices (0.004), exhibiting the double rounding
of `calculateUnitPrice` followed by `updateModalSummary`. -/
def msTiny : ModalState :=
  { menuItemId := "9", name := "tiny", basePrice := 4 / 1000, quantity := 1,
    groups := [], selections := [], currentUnitPrice := some (4 / 1000),
    specialInfo := some { label := "พิเศษ", price := 4 / 1000 },
    specialSelected := true }

/-- An option with a negative price (a discount). -/
def negOpt : MenuOption := { id := "2", name := "discount", price := -1 }

/-- The required single-selection group of the C8 scenario:
`{id:10, options:[{id:100, price:5}]}`. -/
def group10 : OptionGroup :=
  { id := "10", name := "choice", selection_type := .single, is_required := true,
    options := [{ id := "100", name := "opt100", price := 5 }] }

/-- A customization session with one single-group choice and a special option,
used to instantiate the special-toggle frame theorem. -/
def modalW : ModalState :=
  { menuItemId := "7", name := "W", basePrice := 30, quantity := 1,
    groups := [group10],
    selections := [("10", .single "choice" (some { id := "100", name := "opt100", price := 5 }))],
    currentUnitPrice := some 35,
    specialInfo := some { label := "พิเศษ", price := 10 },
    specialSelected := false }

/-- A customization session whose required single group has no chosen option,
so validation fails. -/
def msBad : ModalState :=
  { menuItemId := "2", name := "item2", basePrice := 40, quantity := 1,
    groups := [group10],
    selections := [("10", .single "choice" none)],
    currentUnitPrice := some 40, specialInfo := none, specialSelected := false }

/-! ### Helper lemmas about the cart operations -/

theorem cartKeys_cons (e : CartLineItem) (rest : Cart) :
    cartKeys (e :: rest) = e.key :: cartKeys rest := rfl

theorem map_bump_of_not_mem (cart : Cart) (k : String) (q : Int) (h : k ∉ cartKeys cart) :
    (cart.map fun e =>
      if e.key = k then { e with quantity := e.quantity + q } else e) = cart := by
  induction cart with
  | nil => rfl
  | cons e rest ih =>
      rw [cartKeys_cons, List.mem_cons, not_or] at h
      rw [List.map_cons, if_neg (fun hh : e.key = k => h.1 hh.symm), ih h.2]

theorem upsertOrderItem_of_mem (cart : Cart) (item : CartLineItem)
    (nd : (cartKeys cart).Nodup) (h : item.key ∈ cartKeys cart) :
    upsertOrderItem cart item =
      cart.map fun e =>
        if e.key = item.key then { e with quantity := e.quantity + item.quantity } else e := by
  induction cart with
  | nil => simp [cartKeys] at h
  | cons e rest ih =>
      rw [cartKeys_cons, List.nodup_cons] at nd
      simp only [upsertOrderItem, List.map_cons]
      by_cases hk : e.key = item.key
      · rw [if_pos hk, if_pos hk,
          map_bump_of_not_mem rest item.key item.quantity (by rw [← hk]; exact nd.1)]
      · have hmem : item.key ∈ cartKeys rest := by
          rcases List.mem_cons.mp (by rwa [cartKeys_cons] at h) with h₁ | h₂
          · exact absurd h₁.symm hk
          · exact h₂
        rw [if_neg hk, if_neg hk, ih nd.2 hmem]

theorem upsertOrderItem_of_not_mem (cart : Cart) (item : CartLineItem)
    (h : item.key ∉ cartKeys cart) :
    upsertOrderItem cart item = cart ++ [item] := by
  induction cart with
  | nil => rfl
  | cons e rest ih =>
      rw [cartKeys_cons, List.mem_cons, not_or] at h
      simp only [upsertOrderItem, List.cons_append]
      rw [if_neg (fun hh : e.key = item.key => h.1 hh.symm), ih h.2]

theorem upsertOrderItem_twice (cart : Cart) (item item₂ : CartLineItem)
    (h : item.key ∉ cartKeys cart) (hk : item₂.key = item.key) :
    upsertOrderItem (cart ++ [item]) item₂ =
      cart ++ [{ item with quantity := item.quantity + item₂.quantity }] := by
  induction cart with
  | nil =>
      simp only [List.nil_append, upsertOrderItem]
      rw [if_pos hk.symm]
  | cons e rest ih =>
      rw [cartKeys_cons, List.mem_cons, not_or] at h
      have he : e.key ≠ item₂.key := fun hh => h.1 ((hh.trans hk).symm)
      simp only [List.cons_append, upsertOrderItem]
      rw [if_neg he]
      exact congrArg (e :: ·) (ih h.2)

theorem cartKeys_map_bump (cart : Cart) (k : String) (q : Int) :
    cartKeys (cart.map fun e =>
      if e.key = k then { e with quantity := e.quantity + q } else e) = cartKeys cart := by
  induction cart with
  | nil => rfl
  | cons e rest ih =>
      by_cases hk : e.key = k
      · rw [List.map_cons, if_pos hk, cartKeys_cons, cartKeys_cons, ih]
      · rw [List.map_cons, if_neg hk, cartKeys_cons, cartKeys_cons, ih]

theorem upsertOrderItem_nodup (cart : Cart) (item : CartLineItem)
    (nd : (cartKeys cart).Nodup) :
    (cartKeys (upsertOrderItem cart item)).Nodup := by
  by_cases h : item.key ∈ cartKeys cart
  · rw [upsertOrderItem_of_mem cart item nd h, cartKeys_map_bump]; exact nd
  · rw [upsertOrderItem_of_not_mem cart item h]
    have : cartKeys (cart ++ [item]) = cartKeys cart ++ [item.key] := by
      simp [cartKeys]
    rw [this]
    exact List.Nodup.append nd (List.nodup_singleton _)
      (by simpa [List.disjoint_singleton] using h)

/-! ### C3, C6, C7 -/

/-- C3: `upsertOrderItem` merges into the existing entry when the key is
already present (incrementing its quantity in place, leaving every other
entry and the entry order unchanged, creating no new entry), appends the item
as a new last entry otherwise, keeps cart keys duplicate-free, and applying it
twice with the same key yields a single entry carrying the sum of both
quantities. -/
theorem C3_upsertOrderItem_correct (cart : Cart) (item item₂ : CartLineItem)
    (nd : (cartKeys cart).Nodup) :
    (item.key ∈ cartKeys cart →
       upsertOrderItem cart item =
         cart.map fun e =>
           if e.key = item.key then { e with quantity := e.quantity + item.quantity }
           else e) ∧
    (item.key ∉ cartKeys cart → upsertOrderItem cart item = cart ++ [item]) ∧
    (cartKeys (upsertOrderItem cart item)).Nodup ∧
    (item.key ∉ cartKeys cart → item₂.key = item.key →
       upsertOrderItem (upsertOrderItem cart item) item₂ =
         cart ++ [{ item with quantity := item.quantity + item₂.quantity }]) := by
  refine ⟨fun h => upsertOrderItem_of_mem cart item nd h,
    fun h => upsertOrderItem_of_not_mem cart item h,
    upsertOrderItem_nodup cart item nd, fun h hk => ?_⟩
  rw [upsertOrderItem_of_not_mem cart item h]
  exact upsertOrderItem_twice cart item item₂ h hk

theorem C3_upsertOrderItem_correct_witness :
    (cartKeys ([] : Cart)).Nodup ∧
    (itemA.key ∉ cartKeys ([] : Cart) ∧ itemB.key = itemA.key) ∧
    upsertOrderItem (upsertOrderItem [] itemA) itemB =
      [{ itemA with quantity := itemA.quantity + itemB.quantity }] :=
  ⟨List.nodup_nil,
   ⟨by decide, rfl⟩,
   (C3_upsertOrderItem_correct [] itemA itemB List.nodup_nil).2.2.2 (by decide) rfl⟩

/-- C6: order submission is atomic with respect to the cart: a success
response empties the cart and resets the order-level note to the empty
string, while every failure outcome (server rejection or a thrown
fetch/parsing error) leaves the cart and the note exactly as they were before
submission. -/
theorem C6_submitOrder_atomic (st : PageState) (errMsg : String) :
    ((submitOrder st .accepted errMsg).cart = [] ∧
     (submitOrder st .accepted errMsg).orderNote = "") ∧
    (∀ outcome : SubmitOutcome, outcome ≠ .accepted →
       (submitOrder st outcome errMsg).cart = st.cart ∧
       (submitOrder st outcome errMsg).orderNote = st.orderNote) := by
  refine ⟨⟨rfl, rfl⟩, fun outcome h => ?_⟩
  cases outcome with
  | accepted => exact absurd rfl h
  | serverRejected => exact ⟨rfl, rfl⟩
  | fetchFailed => exact ⟨rfl, rfl⟩

/-- C7: `updateQuantity` is a no-op when the key is absent; when the key is
present it adds `delta` to that entry's quantity, removing the entry entirely
when the result is `≤ 0` and keeping every other entry, in order, in both
cases. -/
theorem C7_updateQuantity_correct (cart : Cart) (k : String) (delta : Int) :
    (k ∉ cartKeys cart → updateQuantity cart k delta = cart) ∧
    (∀ pre entry post, cart = pre ++ entry :: post → entry.key = k →
       k ∉ cartKeys pre →
       updateQuantity cart k delta =
         if entry.quantity + delta ≤ 0 then pre ++ post
         else pre ++ { entry with quantity := entry.quantity + delta } :: post) := by
  constructor
  · intro h
    induction cart with
    | nil => rfl
    | cons e rest ih =>
        rw [cartKeys_cons, List.mem_cons, not_or] at h
        simp only [updateQuantity]
        rw [if_neg (fun hh : e.key = k => h.1 hh.symm), ih h.2]
  · intro pre entry post hcart hk hpre
    subst hcart
    induction pre with
    | nil =>
        simp only [List.nil_append, updateQuantity]
        rw [if_pos hk]
    | cons e pre ih =>
        rw [cartKeys_cons, List.mem_cons, not_or] at hpre
        have he : e.key ≠ k := fun hh => hpre.1 hh.symm
        simp only [List.cons_append, updateQuantity, List.append_eq]
        rw [if_neg he, ih hpre.2]
        split <;> rfl

theorem C6_submitOrder_atomic_witness :
    (submitOrder ⟨[itemA], "note", ""⟩ SubmitOutcome.serverRejected "err").cart = [itemA] ∧
    (submitOrder ⟨[itemA], "note", ""⟩ SubmitOutcome.serverRejected "err").orderNote = "note" :=
  (C6_submitOrder_atomic ⟨[itemA], "note", ""⟩ "err").2 SubmitOutcome.serverRejected
    (by decide)

theorem C7_updateQuantity_correct_witness :
    (itemA.key = "1::base" ∧ ("1::base" : String) ∉ cartKeys ([] : Cart)) ∧
    updateQuantity [itemA] "1::base" (-1) = [] :=
  ⟨⟨rfl, by decide⟩,
   (C7_updateQuantity_correct [itemA] "1::base" (-1)).2 [] itemA [] rfl rfl (by decide)⟩

/-! ### Rounding lemmas -/

theorem round2_cent {q : ℚ} (h : Cent q) : round2 q = q := by
  obtain ⟨n, rfl⟩ := h
  unfold round2
  have h1 : (n : ℚ) / 100 * 100 + 1 / 2 = (n : ℚ) + 1 / 2 := by
    field_simp
  rw [h1]
  have h2 : ⌊(n : ℚ) + 1 / 2⌋ = n := by
    rw [add_comm, Int.floor_add_int]
    norm_num
  rw [h2]

theorem round2_mono {p q : ℚ} (h : p ≤ q) : round2 p ≤ round2 q := by
  unfold round2
  have : ⌊p * 100 + 1 / 2⌋ ≤ ⌊q * 100 + 1 / 2⌋ := Int.floor_mono (by nlinarith)
  have hc : ((⌊p * 100 + 1 / 2⌋ : ℚ) ≤ (⌊q * 100 + 1 / 2⌋ : ℚ)) := by exact_mod_cast this
  linarith

theorem cent_add {p q : ℚ} (hp : Cent p) (hq : Cent q) : Cent (p + q) := by
  obtain ⟨a, rfl⟩ := hp
  obtain ⟨b, rfl⟩ := hq
  exact ⟨a + b, by push_cast; ring⟩

theorem cent_zero : Cent 0 := ⟨0, by norm_num⟩

theorem cent_sum {l : List ℚ} (h : ∀ q ∈ l, Cent q) : Cent l.sum := by
  induction l with
  | nil => simpa using cent_zero
  | cons q rest ih =>
      rw [List.sum_cons]
      exact cent_add (h q (List.mem_cons_self q rest))
        (ih fun r hr => h r (List.mem_cons_of_mem q hr))

theorem cent_selectionPrice {sel : Selection} (h : CentSelection sel) :
    Cent (selectionPrice sel) := by
  match sel with
  | .single _ none => simpa [selectionPrice] using cent_zero
  | .single _ (some o) => simpa [selectionPrice] using h
  | .multiple _ opts =>
      simp only [selectionPrice]
      exact cent_sum fun q hq => by
        obtain ⟨p, hp, rfl⟩ := List.mem_map.mp hq
        exact h p hp

/-! ### C4: unit price formula -/

/-- C4 (counterexample): with sub-cent prices the page rounds twice — once in
`calculateUnitPrice` and once more after adding the special delta in
`updateModalSummary` — so for base price 0.004 and special delta 0.004 the
displayed unit price is 0.00, while one rounding of the full sum (what the
claim states) gives 0.01. -/
theorem C4_counterexample :
    (updateModalSummary msTiny).currentUnitPrice = some 0 ∧
    specUnitPrice msTiny.basePrice msTiny.selections true ((4 : ℚ) / 1000) = 1 / 100 ∧
    (0 : ℚ) ≠ 1 / 100 := by
  refine ⟨?_, ?_, by norm_num⟩
  · show some (round2 _) = some 0
    norm_num [msTiny, calculateUnitPrice, round2]
  · show round2 _ = 1 / 100
    norm_num [msTiny, round2]

/-- C4 (amended): when the base price, every recorded option price and the
special price delta are exact cent multiples, the unit price computed by
`updateModalSummary` equals the specification's formula: base price plus
single-group choices plus multiple-group choices plus the special delta when
toggled, rounded to 2 decimal places. -/
theorem C4_unitPrice_formula (ms : ModalState)
    (hb : Cent ms.basePrice)
    (hsel : ∀ p ∈ ms.selections, CentSelection p.2) :
    (updateModalSummary ms).currentUnitPrice =
      some (specUnitPrice ms.basePrice ms.selections ms.specialSelected
        ((ms.specialInfo.map SpecialInfo.price).getD 0)) := by
  have hsum : Cent (ms.selections.map fun p => selectionPrice p.2).sum := by
    refine cent_sum fun q hq => ?_
    obtain ⟨p, hp, rfl⟩ := List.mem_map.mp hq
    exact cent_selectionPrice (hsel p hp)
  have hbase : round2 (ms.basePrice + (ms.selections.map fun p => selectionPrice p.2).sum) =
      ms.basePrice + (ms.selections.map fun p => selectionPrice p.2).sum :=
    round2_cent (cent_add hb hsum)
  unfold updateModalSummary specUnitPrice calculateUnitPrice
  rw [hbase]
  match hinfo : ms.specialInfo with
  | some info =>
      cases hb2 : ms.specialSelected with
      | true => simp
      | false => simp
  | none =>
      cases hb2 : ms.specialSelected with
      | true => simp
      | false => simp

theorem C4_unitPrice_formula_witness :
    Cent (modalW.basePrice) ∧ (∀ p ∈ modalW.selections, CentSelection p.2) ∧
    (updateModalSummary modalW).currentUnitPrice =
      some (specUnitPrice modalW.basePrice modalW.selections modalW.specialSelected
        ((modalW.specialInfo.map SpecialInfo.price).getD 0)) :=
  ⟨⟨3000, by norm_num [modalW]⟩,
   fun p hp => by
     simp only [modalW, List.mem_singleton] at hp
     subst hp
     exact ⟨500, by norm_num⟩,
   C4_unitPrice_formula modalW ⟨3000, by norm_num [modalW]⟩
     (fun p hp => by
       simp only [modalW, List.mem_singleton] at hp
       subst hp
       exact ⟨500, by norm_num⟩)⟩

/-! ### C9: monotonicity of the unit price -/

theorem mapSet_price_sum (opts : List (String × MenuOption)) (k : String)
    (o : MenuOption) (hfresh : k ∉ opts.map Prod.fst) :
    ((mapSet opts k o).map fun p => p.2.price).sum =
      ((opts.map fun p => p.2.price).sum + o.price) := by
  induction opts with
  | nil => simp [mapSet]
  | cons q rest ih =>
      rw [List.map_cons, List.mem_cons, not_or] at hfresh
      simp only [mapSet]
      rw [if_neg (fun hh : q.1 = k => hfresh.1 hh.symm)]
      simp only [List.map_cons, List.sum_cons, ih hfresh.2]
      ring

theorem selectMultiOption_price_sum (sels : SelectionState) (gid optionId gname : String)
    (opts : List (String × MenuOption)) (o : MenuOption)
    (hmem : (gid, Selection.multiple gname opts) ∈ sels)
    (hnd : (sels.map Prod.fst).Nodup)
    (hfresh : optionId ∉ opts.map Prod.fst) :
    ((selectMultiOption sels gid optionId o).map fun p => selectionPrice p.2).sum =
      ((sels.map fun p => selectionPrice p.2).sum + o.price) := by
  induction sels with
  | nil => simp at hmem
  | cons p rest ih =>
      obtain ⟨g, sel⟩ := p
      rw [List.map_cons, List.nodup_cons] at hnd
      rcases List.mem_cons.mp hmem with heq | hmemr
      · have hg : g = gid := (Prod.ext_iff.mp heq).1.symm
        have hs : sel = Selection.multiple gname opts := (Prod.ext_iff.mp heq).2.symm
        subst hg
        subst hs
        rw [show selectMultiOption ((g, Selection.multiple gname opts) :: rest) g optionId o =
              (g, Selection.multiple gname (mapSet opts optionId o)) :: rest from by
            simp [selectMultiOption]]
        simp only [List.map_cons, List.sum_cons, selectionPrice]
        rw [mapSet_price_sum opts optionId o hfresh]
        ring
      · have hne : g ≠ gid := by
          intro hh
          apply hnd.1
          show g ∈ _
          rw [hh]
          exact List.mem_map_of_mem Prod.fst hmemr
        rw [show selectMultiOption ((g, sel) :: rest) gid optionId o =
              (g, sel) :: selectMultiOption rest gid optionId o from by
            simp [selectMultiOption, hne]]
        simp only [List.map_cons, List.sum_cons]
        rw [ih hmemr hnd.2]
        ring

/-- C9 (counterexample): the claim quantifies over every option; with a
negative-priced option (a discount) adding it to a multiple-selection group
strictly decreases `calculateUnitPrice`. -/
theorem C9_counterexample :
    calculateUnitPrice 0 (selectMultiOption [("1", .multiple "g" [])] "1" "2" negOpt) <
      calculateUnitPrice 0 [("1", .multiple "g" [])] := by
  show round2 _ < round2 _
  norm_num [selectMultiOption, mapSet, selectionPrice, negOpt, round2]

/-- C9 (amended): with a nonnegative-priced option, adding it to a
multiple-selection group's chosen set (via the change handler's `Map.set`, at
an id not already chosen) never decreases `calculateUnitPrice`. -/
theorem C9_unitPrice_monotone (basePrice : ℚ) (sels : SelectionState)
    (gid optionId gname : String) (opts : List (String × MenuOption)) (o : MenuOption)
    (hmem : (gid, Selection.multiple gname opts) ∈ sels)
    (hnd : (sels.map Prod.fst).Nodup)
    (hfresh : optionId ∉ opts.map Prod.fst)
    (hp : 0 ≤ o.price) :
    calculateUnitPrice basePrice sels ≤
      calculateUnitPrice basePrice (selectMultiOption sels gid optionId o) := by
  unfold calculateUnitPrice
  apply round2_mono
  rw [selectMultiOption_price_sum sels gid optionId gname opts o hmem hnd hfresh]
  linarith

theorem C9_unitPrice_monotone_witness :
    ((("1" : String), Selection.multiple "g" []) ∈
        [((("1" : String)), Selection.multiple "g" [])] ∧
      (("2" : String)) ∉ ([] : List (String × MenuOption)).map Prod.fst ∧
      (0 : ℚ) ≤ (3 : ℚ)) ∧
    calculateUnitPrice 10 [("1", Selection.multiple "g" [])] ≤
      calculateUnitPrice 10
        (selectMultiOption [("1", Selection.multiple "g" [])] "1" "2"
          { id := "2", name := "x", price := 3 }) :=
  ⟨⟨List.mem_singleton.mpr rfl, by decide, by norm_num⟩,
   C9_unitPrice_monotone 10 [("1", Selection.multiple "g" [])] "1" "2" "g" []
     { id := "2", name := "x", price := 3 }
     (List.mem_singleton.mpr rfl) (by decide) (by decide) (by norm_num)⟩

/-! ### C8: auto-selected defaults for required single groups -/

/-- C8: opening a customization session auto-selects the first option of every
required single-selection group (the `i`-th initialized selection records the
`i`-th group's first option as its choice), and this default feeds pricing and
key derivation like a user choice: for item `{id:2, basePrice:40}` with the
single required group `{id:10, options:[{id:100, price:5}]}` and no explicit
user action, the session's unit price is 45.00, the option key is `"10:100"`,
and the committed cart entry has key `"2::10:100"` and unit price 45. -/
theorem C8_required_single_default :
    (∀ (groups : List OptionGroup) (i : ℕ) (h : i < groups.length),
       (groups.get ⟨i, h⟩).selection_type = SelectionType.single →
       (groups.get ⟨i, h⟩).is_required = true →
       ∀ o rest, (groups.get ⟨i, h⟩).options = o :: rest →
       (initializeSelections groups).get
           ⟨i, by simpa [initializeSelections] using h⟩ =
         ((groups.get ⟨i, h⟩).id,
           Selection.single (groups.get ⟨i, h⟩).name
             (some { id := o.id, name := o.name, price := o.price }))) ∧
    (openCustomization "2" "item2" 40 [group10] none).currentUnitPrice = some 45 ∧
    buildOptionKeyFromSelections
        (openCustomization "2" "item2" 40 [group10] none).selections = "10:100" ∧
    (customItemOf (openCustomization "2" "item2" 40 [group10] none)).key = "2::10:100" ∧
    (customItemOf (openCustomization "2" "item2" 40 [group10] none)).unitPrice = 45 := by
  have hcup : (openCustomization "2" "item2" 40 [group10] none).currentUnitPrice = some 45 := by
    show some (round2 (calculateUnitPrice _ _)) = some 45
    norm_num [calculateUnitPrice, initializeSelections, group10, selectionPrice, round2]
  refine ⟨?_, hcup, rfl, rfl, ?_⟩
  · intro groups i h hst hreq o rest hopts
    simp only [List.get_eq_getElem] at hst hreq hopts ⊢
    simp only [initializeSelections, List.getElem_map, hst, hreq, hopts, if_true]
  · simp only [customItemOf]
    rw [hcup]
    rfl

theorem C8_required_single_default_witness :
    (group10.selection_type = SelectionType.single ∧ group10.is_required = true ∧
      group10.options = { id := "100", name := "opt100", price := 5 } :: []) ∧
    (initializeSelections [group10]).get ⟨0, by decide⟩ =
      ("10", Selection.single "choice"
        (some { id := "100", name := "opt100", price := 5 })) :=
  ⟨⟨rfl, rfl, rfl⟩,
   C8_required_single_default.1 [group10] 0 (by decide) rfl rfl
     { id := "100", name := "opt100", price := 5 } [] rfl⟩

/-! ### C10: the special toggle does not enter the cart key -/

/-- C10: the committed cart key is built only from the menu item id and the
group selections, never from `specialSelected`; two sessions that differ only
in the special toggle produce the same key, so committing both merges them
into one entry that keeps the first commit's `unitPrice`, `name`, `note` and
`selections` and only accumulates quantity (the second commit's differing
special price is lost). -/
theorem C10_special_key_frame (cart : Cart) (ms : ModalState) (b : Bool)
    (h : (customItemOf (updateModalSummary ms)).key ∉ cartKeys cart) :
    (customItemOf (updateModalSummary { ms with specialSelected := b })).key =
      (customItemOf (updateModalSummary ms)).key ∧
    addCustomizedItem (addCustomizedItem cart (updateModalSummary ms))
        (updateModalSummary { ms with specialSelected := b }) =
      cart ++ [{ customItemOf (updateModalSummary ms) with
                   quantity := (customItemOf (updateModalSummary ms)).quantity +
                     (customItemOf
                       (updateModalSummary { ms with specialSelected := b })).quantity }] := by
  have hkey : (customItemOf (updateModalSummary { ms with specialSelected := b })).key =
      (customItemOf (updateModalSummary ms)).key := rfl
  refine ⟨hkey, ?_⟩
  unfold addCustomizedItem
  rw [upsertOrderItem_of_not_mem cart _ h]
  exact upsertOrderItem_twice cart _ _ h hkey

theorem C10_special_key_frame_witness :
    ((customItemOf (updateModalSummary modalW)).key ∉ cartKeys ([] : Cart)) ∧
    (customItemOf (updateModalSummary { modalW with specialSelected := true })).key =
      (customItemOf (updateModalSummary modalW)).key :=
  ⟨by simp [cartKeys],
   (C10_special_key_frame [] modalW true (by simp [cartKeys])).1⟩

/-! ### C5: validation of required groups -/

theorem validateSelections_eq_none_iff (groups : List OptionGroup) (sels : SelectionState) :
    validateSelections groups sels = none ↔
      ∀ gid sel, (gid, sel) ∈ sels → ∀ g, groupIndexGet groups gid = some g →
        g.is_required = true → ¬ Violated sel := by
  induction sels with
  | nil => simp [validateSelections]
  | cons p rest ih =>
      obtain ⟨gid, sel⟩ := p
      have hsplit :
          (∀ gid2 sel2, (gid2, sel2) ∈ (gid, sel) :: rest → ∀ g,
            groupIndexGet groups gid2 = some g → g.is_required = true → ¬ Violated sel2) ↔
          ((∀ g, groupIndexGet groups gid = some g → g.is_required = true → ¬ Violated sel) ∧
           (∀ gid2 sel2, (gid2, sel2) ∈ rest → ∀ g,
             groupIndexGet groups gid2 = some g → g.is_required = true → ¬ Violated sel2)) := by
        constructor
        · intro hall
          refine ⟨fun g hg => hall gid sel (List.mem_cons_self _ _) g hg, ?_⟩
          intro gid2 sel2 hmem g hg
          exact hall gid2 sel2 (List.mem_cons_of_mem _ hmem) g hg
        · rintro ⟨hhead, hrest⟩ gid2 sel2 hmem g hg hreq
          rcases List.mem_cons.mp hmem with heq | hmem2
          · have h1 : gid2 = gid := (Prod.ext_iff.mp heq).1
            have h2 : sel2 = sel := (Prod.ext_iff.mp heq).2
            subst h1
            subst h2
            exact hhead g hg hreq
          · exact hrest gid2 sel2 hmem2 g hg hreq
      rw [hsplit]
      cases hg : groupIndexGet groups gid with
      | none =>
          simp only [validateSelections, hg]
          rw [ih]
          constructor
          · intro hrest
            exact ⟨fun g hget => Option.noConfusion hget, hrest⟩
          · exact fun hh => hh.2
      | some g =>
          by_cases hreq : g.is_required = true
          · cases sel with
            | single gn choice =>
                cases choice with
                | none =>
                    simp only [validateSelections, hg]
                    rw [if_pos hreq]
                    constructor
                    · intro hx
                      exact Option.noConfusion hx
                    · intro hh
                      exact absurd (show Violated (Selection.single gn none) from trivial)
                        (hh.1 g rfl hreq)
                | some o =>
                    simp only [validateSelections, hg]
                    rw [if_pos hreq, ih]
                    constructor
                    · intro hrest
                      exact ⟨fun g2 hget hreq2 hv => hv, hrest⟩
                    · exact fun hh => hh.2
            | multiple gn opts =>
                cases hopts : opts.isEmpty with
                | true =>
                    simp only [validateSelections, hg]
                    rw [if_pos hreq, if_pos hopts]
                    constructor
                    · intro hx
                      exact Option.noConfusion hx
                    · intro hh
                      exact absurd (show Violated (Selection.multiple gn opts) from
                        List.isEmpty_iff.mp hopts) (hh.1 g rfl hreq)
                | false =>
                    simp only [validateSelections, hg]
                    rw [if_pos hreq, if_neg (by simp [hopts]), ih]
                    constructor
                    · intro hrest
                      refine ⟨fun g2 hget hreq2 hv => ?_, hrest⟩
                      rw [show opts = [] from hv] at hopts
                      simp at hopts
                    · exact fun hh => hh.2
          · simp only [validateSelections, hg]
            rw [if_neg hreq, ih]
            constructor
            · intro hrest
              refine ⟨fun g2 hget hreq2 => ?_, hrest⟩
              have hgg : g = g2 := Option.some.inj hget
              rw [← hgg] at hreq2
              exact absurd hreq2 hreq
            · exact fun hh => hh.2

theorem validateSelections_first_violation (groups : List OptionGroup) :
    ∀ (pre : SelectionState) (gid : String) (sel : Selection) (post : SelectionState)
      (g : OptionGroup),
      groupIndexGet groups gid = some g → g.is_required = true → Violated sel →
      (∀ gid2 sel2, (gid2, sel2) ∈ pre → ∀ g2, groupIndexGet groups gid2 = some g2 →
        g2.is_required = true → ¬ Violated sel2) →
      validateSelections groups (pre ++ (gid, sel) :: post) =
        some (violationMsgFor g sel) := by
  intro pre
  induction pre with
  | nil =>
      intro gid sel post g hget hreq hv _
      rw [List.nil_append]
      simp only [validateSelections, hget]
      rw [if_pos hreq]
      cases sel with
      | single gn choice =>
          cases choice with
          | none => rfl
          | some o => exact absurd hv (fun hx => hx)
      | multiple gn opts =>
          have : opts = [] := hv
          subst this
          rfl
  | cons p pre ih =>
      intro gid sel post g hget hreq hv hfirst
      obtain ⟨gid2, sel2⟩ := p
      have hfirst2 : ∀ gid3 sel3, (gid3, sel3) ∈ pre → ∀ g3,
          groupIndexGet groups gid3 = some g3 → g3.is_required = true → ¬ Violated sel3 :=
        fun gid3 sel3 hmem => hfirst gid3 sel3 (List.mem_cons_of_mem _ hmem)
      have hrec := ih gid sel post g hget hreq hv hfirst2
      rw [List.cons_append]
      cases hg2 : groupIndexGet groups gid2 with
      | none =>
          simp only [validateSelections, hg2]
          exact hrec
      | some gh =>
          by_cases hreq2 : gh.is_required = true
          · have hnv : ¬ Violated sel2 :=
              hfirst gid2 sel2 (List.mem_cons_self _ _) gh hg2 hreq2
            cases sel2 with
            | single gn choice =>
                cases choice with
                | none => exact absurd trivial hnv
                | some o =>
                    simp only [validateSelections, hg2]
                    rw [if_pos hreq2]
                    exact hrec
            | multiple gn opts =>
                cases hopts : opts.isEmpty with
                | true => exact absurd (List.isEmpty_iff.mp hopts) hnv
                | false =>
                    simp only [validateSelections, hg2]
                    rw [if_pos hreq2, if_neg (by simp [hopts])]
                    exact hrec
          · simp only [validateSelections, hg2]
            rw [if_neg hreq2]
            exact hrec

/-- C5: `validateSelections` returns `none` exactly when every required group
(looked up through `groupIndex`) has a non-empty selection; when the selection
list splits as `pre ++ violated ++ post` with nothing violated in `pre`, it
returns precisely the violated group's human-readable message; and whenever it
returns an error on the add-to-cart confirmation, the session stays open and
the cart is returned unchanged. -/
theorem C5_validateSelections_correct (groups : List OptionGroup) (sels : SelectionState)
    (cart : Cart) (ms : ModalState) :
    (validateSelections groups sels = none ↔
       ∀ gid sel, (gid, sel) ∈ sels → ∀ g, groupIndexGet groups gid = some g →
         g.is_required = true → ¬ Violated sel) ∧
    (∀ pre gid sel post g, sels = pre ++ (gid, sel) :: post →
       groupIndexGet groups gid = some g → g.is_required = true → Violated sel →
       (∀ gid2 sel2, (gid2, sel2) ∈ pre → ∀ g2, groupIndexGet groups gid2 = some g2 →
          g2.is_required = true → ¬ Violated sel2) →
       validateSelections groups sels = some (violationMsgFor g sel)) ∧
    (∀ err, validateSelections ms.groups ms.selections = some err →
       addBtnClick cart ms = (cart, true)) := by
  refine ⟨validateSelections_eq_none_iff groups sels, ?_, ?_⟩
  · intro pre gid sel post g hsels hget hreq hv hfirst
    subst hsels
    exact validateSelections_first_violation groups pre gid sel post g hget hreq hv hfirst
  · intro err herr
    unfold addBtnClick
    rw [herr]

theorem C5_validateSelections_correct_witness :
    validateSelections msBad.groups msBad.selections = some (violationMsgSingle group10) ∧
    addBtnClick [] msBad = ([], true) :=
  ⟨by decide,
   (C5_validateSelections_correct msBad.groups msBad.selections [] msBad).2.2
     (violationMsgSingle group10) (by decide)⟩

/-! ### The lexicographic string order and `sortStrings` -/

theorem charListLe_total : ∀ a b : List Char,
    charListLe a b = true ∨ charListLe b a = true := by
  intro a
  induction a with
  | nil => intro b; left; rfl
  | cons x xs ih =>
      intro b
      cases b with
      | nil => right; rfl
      | cons y ys =>
          by_cases hxy : x < y
          · left; simp [charListLe, hxy]
          · by_cases hyx : y < x
            · right; simp [charListLe, hyx]
            · rcases ih ys with h | h
              · left; simp [charListLe, hxy, hyx, h]
              · right; simp [charListLe, hxy, hyx, h]

theorem charListLe_trans : ∀ a b c : List Char,
    charListLe a b = true → charListLe b c = true → charListLe a c = true := by
  intro a
  induction a with
  | nil => intro b c _ _; rfl
  | cons x xs ih =>
      intro b c hab hbc
      cases b with
      | nil => simp [charListLe] at hab
      | cons y ys =>
          cases c with
          | nil => simp [charListLe] at hbc
          | cons z zs =>
              simp only [charListLe] at hab hbc ⊢
              by_cases hxy : x < y
              · by_cases hyz : y < z
                · simp [lt_trans hxy hyz]
                · by_cases hzy : z < y
                  · rw [if_neg hyz, if_pos hzy] at hbc
                    exact absurd hbc (by simp)
                  · have hyz2 : y = z := le_antisymm (not_lt.mp hzy) (not_lt.mp hyz)
                    simp [hyz2 ▸ hxy]
              · by_cases hyx : y < x
                · rw [if_neg hxy, if_pos hyx] at hab
                  exact absurd hab (by simp)
                · have hxy2 : x = y := le_antisymm (not_lt.mp hyx) (not_lt.mp hxy)
                  rw [if_neg hxy, if_neg hyx] at hab
                  subst hxy2
                  by_cases hxz : x < z
                  · simp [hxz]
                  · by_cases hzx : z < x
                    · rw [if_neg hxz, if_pos hzx] at hbc
                      exact absurd hbc (by simp)
                    · rw [if_neg hxz, if_neg hzx] at hbc ⊢
                      exact ih ys zs hab hbc

theorem charListLe_antisymm : ∀ a b : List Char,
    charListLe a b = true → charListLe b a = true → a = b := by
  intro a
  induction a with
  | nil =>
      intro b _ hba
      cases b with
      | nil => rfl
      | cons y ys => simp [charListLe] at hba
  | cons x xs ih =>
      intro b hab hba
      cases b with
      | nil => simp [charListLe] at hab
      | cons y ys =>
          simp only [charListLe] at hab hba
          by_cases hxy : x < y
          · rw [if_neg (asymm hxy), if_pos hxy] at hba
            exact absurd hba (by simp)
          · by_cases hyx : y < x
            · rw [if_neg hxy, if_pos hyx] at hab
              exact absurd hab (by simp)
            · have hxy2 : x = y := le_antisymm (not_lt.mp hyx) (not_lt.mp hxy)
              rw [if_neg hxy, if_neg hyx] at hab
              rw [if_neg hyx, if_neg hxy] at hba
              rw [hxy2, ih ys hab hba]

instance : IsTrans String strLe :=
  ⟨fun a b c hab hbc => charListLe_trans a.data b.data c.data hab hbc⟩

instance : IsTotal String strLe :=
  ⟨fun a b => charListLe_total a.data b.data⟩

instance : IsAntisymm String strLe :=
  ⟨fun a b hab hba => String.ext (charListLe_antisymm a.data b.data hab hba)⟩

theorem sortStrings_perm (l : List String) : (sortStrings l).Perm l :=
  List.perm_insertionSort strLe l

theorem sortStrings_sorted (l : List String) : List.Sorted strLe (sortStrings l) :=
  List.sorted_insertionSort strLe l

theorem sortStrings_eq_of_perm {l₁ l₂ : List String} (h : l₁.Perm l₂) :
    sortStrings l₁ = sortStrings l₂ :=
  List.eq_of_perm_of_sorted
    ((sortStrings_perm l₁).trans (h.trans (sortStrings_perm l₂).symm))
    (sortStrings_sorted l₁) (sortStrings_sorted l₂)

theorem perm_of_sortStrings_eq {l₁ l₂ : List String} (h : sortStrings l₁ = sortStrings l₂) :
    l₁.Perm l₂ :=
  (sortStrings_perm l₁).symm.trans (by rw [h]; exact sortStrings_perm l₂)

/-! ### C1: canonical keys for set-equal selection states -/

theorem selectionFragment_congr (sel₁ sel₂ : Selection) (h : SelectionSetEq sel₁ sel₂)
    (n₁ : SelectionNodup sel₁) (n₂ : SelectionNodup sel₂) :
    selectionFragment sel₁ = selectionFragment sel₂ := by
  cases sel₁ with
  | single gn₁ c₁ =>
      cases sel₂ with
      | single gn₂ c₂ =>
          have hc : c₁ = c₂ := h
          subst hc
          cases c₁ with
          | none => rfl
          | some o => rfl
      | multiple gn₂ m₂ => exact absurd h (fun hx => hx)
  | multiple gn₁ m₁ =>
      cases sel₂ with
      | single gn₂ c₂ => exact absurd h (fun hx => hx)
      | multiple gn₂ m₂ =>
          have hmem : ∀ x, x ∈ m₁ ↔ x ∈ m₂ := h
          have hm : m₁.Perm m₂ := List.Subperm.antisymm
            (List.subperm_of_subset (List.Nodup.of_map _ n₁) fun x hx => (hmem x).mp hx)
            (List.subperm_of_subset (List.Nodup.of_map _ n₂) fun x hx => (hmem x).mpr hx)
          simp only [selectionFragment, sortStrings_eq_of_perm (hm.map Prod.fst)]

theorem parts_eq_of_forall₂ : ∀ t s₂ : SelectionState,
    List.Forall₂ (fun p q => p.1 = q.1 ∧ SelectionSetEq p.2 q.2) t s₂ →
    StateNodupChosen t → StateNodupChosen s₂ →
    (t.map fun p => groupPart p.1 p.2) = s₂.map fun p => groupPart p.1 p.2 := by
  intro t
  induction t with
  | nil =>
      intro s₂ h _ _
      cases h
      rfl
  | cons p t2 ih =>
      intro s₂ h n₁ n₂
      rcases h with _ | ⟨hpq, hrest⟩
      rename_i q s₂2
      rw [List.map_cons, List.map_cons]
      have hfrag : groupPart p.1 p.2 = groupPart q.1 q.2 := by
        unfold groupPart
        rw [hpq.1, selectionFragment_congr p.2 q.2 hpq.2
          (n₁ p (List.mem_cons_self _ _)) (n₂ q (List.mem_cons_self _ _))]
      rw [hfrag, ih s₂2 hrest
        (fun r hr => n₁ r (List.mem_cons_of_mem _ hr))
        (fun r hr => n₂ r (List.mem_cons_of_mem _ hr))]

/-- C1: set-equal selection states (the same chosen option per single-type
group, the same set of chosen options per multiple-type group, regardless of
the order of groups or of choices) map to identical key strings under
`buildOptionKeyFromSelections`, and the empty selection state maps to the
literal key `"base"`. -/
theorem C1_key_canonical :
    (∀ s₁ s₂ : SelectionState, StateNodupChosen s₁ → StateNodupChosen s₂ →
       StateSetEq s₁ s₂ →
       buildOptionKeyFromSelections s₁ = buildOptionKeyFromSelections s₂) ∧
    buildOptionKeyFromSelections [] = "base" := by
  refine ⟨?_, rfl⟩
  intro s₁ s₂ n₁ n₂ hse
  obtain ⟨t, hperm, hrel⟩ := hse
  have nt : StateNodupChosen t := fun p hp => n₁ p (hperm.mem_iff.mpr hp)
  have hsort : sortStrings (s₁.map fun p => groupPart p.1 p.2) =
      sortStrings (s₂.map fun p => groupPart p.1 p.2) := by
    have hpt : (s₁.map fun p => groupPart p.1 p.2).Perm
        (t.map fun p => groupPart p.1 p.2) := hperm.map _
    rw [parts_eq_of_forall₂ t s₂ hrel nt n₂] at hpt
    exact sortStrings_eq_of_perm hpt
  by_cases hnil : s₁ = []
  · subst hnil
    have ht : t = [] := hperm.symm.eq_nil
    subst ht
    cases hrel
    rfl
  · have hnil₂ : s₂ ≠ [] := by
      intro hh
      subst hh
      have hlen : s₁.length = 0 := hperm.length_eq.trans hrel.length_eq
      exact hnil (List.length_eq_zero.mp hlen)
    have hb₁ : ¬(s₁.isEmpty = true) := fun hh => hnil (List.isEmpty_iff.mp hh)
    have hb₂ : ¬(s₂.isEmpty = true) := fun hh => hnil₂ (List.isEmpty_iff.mp hh)
    simp only [buildOptionKeyFromSelections]
    rw [if_neg hb₁, if_neg hb₂, hsort]

theorem C1_key_canonical_witness :
    StateNodupChosen selW1 ∧ StateNodupChosen selW2 ∧ StateSetEq selW1 selW2 ∧
    buildOptionKeyFromSelections selW1 = buildOptionKeyFromSelections selW2 := by
  have nd1 : StateNodupChosen selW1 := by
    intro p hp
    rcases List.mem_cons.mp hp with rfl | hp2
    · show (["b", "a"] : List String).Nodup
      decide
    · rcases List.mem_cons.mp hp2 with rfl | hp3
      · exact trivial
      · exact absurd hp3 (List.not_mem_nil _)
  have nd2 : StateNodupChosen selW2 := by
    intro p hp
    rcases List.mem_cons.mp hp with rfl | hp2
    · exact trivial
    · rcases List.mem_cons.mp hp2 with rfl | hp3
      · show (["a", "b"] : List String).Nodup
        decide
      · exact absurd hp3 (List.not_mem_nil _)
  have hse : StateSetEq selW1 selW2 := by
    refine ⟨[("2", .single "h" (some optC)), ("1", .multiple "g" [("b", optB), ("a", optA)])],
      List.Perm.swap _ _ _, ?_⟩
    refine List.Forall₂.cons ⟨rfl, rfl⟩ (List.Forall₂.cons ⟨rfl, ?_⟩ List.Forall₂.nil)
    intro x
    show x ∈ [("b", optB), ("a", optA)] ↔ x ∈ [("a", optA), ("b", optB)]
    simp only [List.mem_cons, List.not_mem_nil, or_false]
    exact or_comm
  exact ⟨nd1, nd2, hse, C1_key_canonical.1 selW1 selW2 nd1 nd2 hse⟩

/-! ### String splitting machinery for key injectivity -/

theorem append_cons_inj {c : Char} : ∀ (a b x y : List Char), c ∉ a → c ∉ b →
    a ++ c :: x = b ++ c :: y → a = b ∧ x = y := by
  intro a
  induction a with
  | nil =>
      intro b x y _ hb h
      cases b with
      | nil => simpa using h
      | cons b0 bs =>
          rw [List.nil_append, List.cons_append] at h
          injection h with h1 h2
          subst h1
          exact absurd (List.mem_cons_self _ _) hb
  | cons a0 as ih =>
      intro b x y ha hb h
      cases b with
      | nil =>
          rw [List.nil_append, List.cons_append] at h
          injection h with h1 h2
          subst h1
          exact absurd (List.mem_cons_self _ _) ha
      | cons b0 bs =>
          rw [List.cons_append, List.cons_append] at h
          injection h with h1 h2
          have ha2 : c ∉ as := fun hm => ha (List.mem_cons_of_mem _ hm)
          have hb2 : c ∉ bs := fun hm => hb (List.mem_cons_of_mem _ hm)
          obtain ⟨he, hxy⟩ := ih bs x y ha2 hb2 h2
          exact ⟨by rw [h1, he], hxy⟩

theorem joinSep_data_cons (sep : String) (s : String) (l : List String) (h : l ≠ []) :
    (joinSep sep (s :: l)).data = s.data ++ sep.data ++ (joinSep sep l).data := by
  cases l with
  | nil => exact absurd rfl h
  | cons t ts =>
      show (s ++ sep ++ joinSep sep (t :: ts)).data = _
      rw [String.data_append, String.data_append]

theorem mem_joinSep_data (sep : String) : ∀ (l : List String) (ch : Char),
    ch ∈ (joinSep sep l).data → ch ∈ sep.data ∨ ∃ s ∈ l, ch ∈ s.data := by
  intro l
  induction l with
  | nil =>
      intro ch h
      exact absurd h (List.not_mem_nil ch)
  | cons s l ih =>
      intro ch h
      cases l with
      | nil => exact Or.inr ⟨s, List.mem_cons_self s [], h⟩
      | cons t ts =>
          rw [joinSep_data_cons sep s (t :: ts) (by simp)] at h
          rcases List.mem_append.mp h with h1 | h2
          · rcases List.mem_append.mp h1 with h3 | h4
            · exact Or.inr ⟨s, List.mem_cons_self _ _, h3⟩
            · exact Or.inl h4
          · rcases ih ch h2 with h5 | ⟨u, hu, hcu⟩
            · exact Or.inl h5
            · exact Or.inr ⟨u, List.mem_cons_of_mem _ hu, hcu⟩

theorem joinSep_ne_empty (sep : String) : ∀ (l : List String), l ≠ [] →
    (∀ s ∈ l, s.data ≠ []) → (joinSep sep l).data ≠ [] := by
  intro l
  cases l with
  | nil => intro h _; exact absurd rfl h
  | cons s ts =>
      intro _ hne
      cases ts with
      | nil => exact hne s (List.mem_cons_self s [])
      | cons t ts2 =>
          rw [joinSep_data_cons sep s (t :: ts2) (by simp)]
          intro hcontra
          rcases List.append_eq_nil.mp hcontra with ⟨h1, _⟩
          rcases List.append_eq_nil.mp h1 with ⟨h2, _⟩
          exact hne s (List.mem_cons_self _ _) h2

theorem joinSep_inj {c : Char} {sep : String} (hsep : sep.data = [c]) :
    ∀ l₁ l₂ : List String,
      (∀ s ∈ l₁, s.data ≠ [] ∧ c ∉ s.data) → (∀ s ∈ l₂, s.data ≠ [] ∧ c ∉ s.data) →
      joinSep sep l₁ = joinSep sep l₂ → l₁ = l₂ := by
  intro l₁
  induction l₁ with
  | nil =>
      intro l₂ _ h₂ h
      cases l₂ with
      | nil => rfl
      | cons u us =>
          exfalso
          apply joinSep_ne_empty sep (u :: us) (by simp) (fun r hr => (h₂ r hr).1)
          rw [← h]
          rfl
  | cons s l₁2 ih =>
      intro l₂ h₁ h₂ h
      cases l₂ with
      | nil =>
          exfalso
          apply joinSep_ne_empty sep (s :: l₁2) (by simp) (fun r hr => (h₁ r hr).1)
          rw [h]
          rfl
      | cons u us =>
          cases l₁2 with
          | nil =>
              cases us with
              | nil =>
                  rw [show joinSep sep [s] = s from rfl,
                    show joinSep sep [u] = u from rfl] at h
                  rw [h]
              | cons v vs =>
                  exfalso
                  have hcmem : c ∈ (joinSep sep (u :: v :: vs)).data := by
                    rw [joinSep_data_cons sep u (v :: vs) (by simp), hsep]
                    exact List.mem_append.mpr (Or.inl (List.mem_append.mpr
                      (Or.inr (List.mem_cons_self c []))))
                  rw [show joinSep sep [s] = s from rfl] at h
                  rw [← h] at hcmem
                  exact (h₁ s (List.mem_cons_self _ _)).2 hcmem
          | cons s2 l₁3 =>
              cases us with
              | nil =>
                  exfalso
                  have hcmem : c ∈ (joinSep sep (s :: s2 :: l₁3)).data := by
                    rw [joinSep_data_cons sep s (s2 :: l₁3) (by simp), hsep]
                    exact List.mem_append.mpr (Or.inl (List.mem_append.mpr
                      (Or.inr (List.mem_cons_self c []))))
                  rw [show joinSep sep [u] = u from rfl] at h
                  rw [h] at hcmem
                  exact (h₂ u (List.mem_cons_self _ _)).2 hcmem
              | cons v vs =>
                  have hd : s.data ++ c :: (joinSep sep (s2 :: l₁3)).data =
                      u.data ++ c :: (joinSep sep (v :: vs)).data := by
                    have h2 := congrArg String.data h
                    rw [joinSep_data_cons sep s (s2 :: l₁3) (by simp),
                      joinSep_data_cons sep u (v :: vs) (by simp), hsep] at h2
                    simpa using h2
                  obtain ⟨hsu, hrest⟩ := append_cons_inj s.data u.data _ _
                    (h₁ s (List.mem_cons_self _ _)).2 (h₂ u (List.mem_cons_self _ _)).2 hd
                  have hs2 : s = u := String.ext hsu
                  have hjoin : joinSep sep (s2 :: l₁3) = joinSep sep (v :: vs) :=
                    String.ext hrest
                  rw [hs2, ih (v :: vs) (fun r hr => h₁ r (List.mem_cons_of_mem _ hr))
                    (fun r hr => h₂ r (List.mem_cons_of_mem _ hr)) hjoin]

/-! ### Well-formed id strings and key fragments -/

theorem isIdStr_data_ne {s : String} (h : IsIdStr s) : s.data ≠ [] :=
  fun hd => h.1 (String.ext hd)

theorem isIdStr_not_mem {s : String} (h : IsIdStr s) (ch : Char)
    (hch : ¬ ch.isDigit = true) : ch ∉ s.data :=
  fun hm => hch (h.2 ch hm)

theorem selectionFragment_chars (sel : Selection) (w : SelectionWF sel) :
    ∀ ch ∈ (selectionFragment sel).data,
      ch.isDigit = true ∨ ch = '-' ∨ ch ∈ ("none" : String).data := by
  cases sel with
  | single gn choice =>
      cases choice with
      | none => intro ch hch; exact Or.inr (Or.inr hch)
      | some o =>
          intro ch hch
          exact Or.inl ((w : IsIdStr o.id).2 ch hch)
  | multiple gn opts =>
      intro ch hch
      by_cases hempty : (sortStrings (opts.map Prod.fst)).isEmpty = true
      · rw [show selectionFragment (.multiple gn opts) = "none" from by
            simp [selectionFragment, hempty]] at hch
        exact Or.inr (Or.inr hch)
      · rw [show selectionFragment (.multiple gn opts) =
              joinSep "-" (sortStrings (opts.map Prod.fst)) from by
            simp [selectionFragment, hempty]] at hch
        rcases mem_joinSep_data "-" _ ch hch with h1 | ⟨s, hs, hcs⟩
        · exact Or.inr (Or.inl (by simpa using h1))
        · have hmem : s ∈ opts.map Prod.fst := (sortStrings_perm _).mem_iff.mp hs
          rcases List.mem_map.mp hmem with ⟨q, hq, rfl⟩
          exact Or.inl ((w q hq).2 ch hcs)

theorem groupPart_data (gid : String) (sel : Selection) :
    (groupPart gid sel).data = gid.data ++ ':' :: (selectionFragment sel).data := by
  unfold groupPart
  rw [String.data_append, String.data_append, List.append_assoc]
  rfl

theorem groupPart_wf (gid : String) (sel : Selection) (hg : IsIdStr gid)
    (hw : SelectionWF sel) :
    (groupPart gid sel).data ≠ [] ∧ '|' ∉ (groupPart gid sel).data := by
  rw [groupPart_data]
  constructor
  · intro h
    rcases List.append_eq_nil.mp h with ⟨_, h2⟩
    exact List.cons_ne_nil _ _ h2
  · intro hmem
    rcases List.mem_append.mp hmem with h1 | h2
    · exact isIdStr_not_mem hg '|' (by decide) h1
    · rcases List.mem_cons.mp h2 with h3 | h4
      · exact absurd h3 (by decide)
      · rcases selectionFragment_chars sel hw '|' h4 with h5 | h6 | h7
        · exact absurd h5 (by decide)
        · exact absurd h6 (by decide)
        · exact absurd h7 (by decide)

theorem groupPart_inj {g₁ g₂ : String} {f₁ f₂ : Selection}
    (h₁ : IsIdStr g₁) (h₂ : IsIdStr g₂)
    (h : groupPart g₁ f₁ = groupPart g₂ f₂) :
    g₁ = g₂ ∧ selectionFragment f₁ = selectionFragment f₂ := by
  have hd := congrArg String.data h
  rw [groupPart_data, groupPart_data] at hd
  obtain ⟨ha, hb⟩ := append_cons_inj g₁.data g₂.data _ _
    (isIdStr_not_mem h₁ ':' (by decide)) (isIdStr_not_mem h₂ ':' (by decide)) hd
  exact ⟨String.ext ha, String.ext hb⟩

theorem selectionFragment_inj {sel₁ sel₂ : Selection}
    (w₁ : SelectionWF sel₁) (w₂ : SelectionWF sel₂)
    (ht : SelectionSameType sel₁ sel₂)
    (h : selectionFragment sel₁ = selectionFragment sel₂) :
    SelectionSameChoice sel₁ sel₂ := by
  cases sel₁ with
  | single gn₁ c₁ =>
      cases sel₂ with
      | single gn₂ c₂ =>
          cases c₁ with
          | none =>
              cases c₂ with
              | none => exact rfl
              | some o =>
                  exfalso
                  have hn : 'n' ∈ o.id.data := by
                    rw [show o.id = "none" from h.symm]
                    decide
                  exact isIdStr_not_mem (w₂ : IsIdStr o.id) 'n' (by decide) hn
          | some o =>
              cases c₂ with
              | none =>
                  exfalso
                  have hn : 'n' ∈ o.id.data := by
                    rw [show o.id = "none" from h]
                    decide
                  exact isIdStr_not_mem (w₁ : IsIdStr o.id) 'n' (by decide) hn
              | some o₂ =>
                  show some o.id = some o₂.id
                  rw [show o.id = o₂.id from h]
      | multiple _ _ => exact absurd ht (fun hx => hx)
  | multiple gn₁ m₁ =>
      cases sel₂ with
      | single _ _ => exact absurd ht (fun hx => hx)
      | multiple gn₂ m₂ =>
          show ∀ k, k ∈ m₁.map Prod.fst ↔ k ∈ m₂.map Prod.fst
          by_cases he₁ : (sortStrings (m₁.map Prod.fst)).isEmpty = true
          · by_cases he₂ : (sortStrings (m₂.map Prod.fst)).isEmpty = true
            · have hk₁ : m₁.map Prod.fst = [] := by
                have hp := sortStrings_perm (m₁.map Prod.fst)
                rw [List.isEmpty_iff.mp he₁] at hp
                exact (hp.symm).eq_nil
              have hk₂ : m₂.map Prod.fst = [] := by
                have hp := sortStrings_perm (m₂.map Prod.fst)
                rw [List.isEmpty_iff.mp he₂] at hp
                exact (hp.symm).eq_nil
              intro k
              rw [hk₁, hk₂]
            · exfalso
              rw [show selectionFragment (.multiple gn₁ m₁) = "none" from by
                    simp [selectionFragment, he₁],
                  show selectionFragment (.multiple gn₂ m₂) =
                      joinSep "-" (sortStrings (m₂.map Prod.fst)) from by
                    simp [selectionFragment, he₂]] at h
              have hn : 'n' ∈ (joinSep "-" (sortStrings (m₂.map Prod.fst))).data := by
                rw [← h]
                decide
              rcases mem_joinSep_data "-" _ 'n' hn with h1 | ⟨s, hs, hcs⟩
              · simp at h1
              · have hmem : s ∈ m₂.map Prod.fst := (sortStrings_perm _).mem_iff.mp hs
                rcases List.mem_map.mp hmem with ⟨q, hq, rfl⟩
                exact isIdStr_not_mem (w₂ q hq) 'n' (by decide) hcs
          · by_cases he₂ : (sortStrings (m₂.map Prod.fst)).isEmpty = true
            · exfalso
              rw [show selectionFragment (.multiple gn₂ m₂) = "none" from by
                    simp [selectionFragment, he₂],
                  show selectionFragment (.multiple gn₁ m₁) =
                      joinSep "-" (sortStrings (m₁.map Prod.fst)) from by
                    simp [selectionFragment, he₁]] at h
              have hn : 'n' ∈ (joinSep "-" (sortStrings (m₁.map Prod.fst))).data := by
                rw [h]
                decide
              rcases mem_joinSep_data "-" _ 'n' hn with h1 | ⟨s, hs, hcs⟩
              · simp at h1
              · have hmem : s ∈ m₁.map Prod.fst := (sortStrings_perm _).mem_iff.mp hs
                rcases List.mem_map.mp hmem with ⟨q, hq, rfl⟩
                exact isIdStr_not_mem (w₁ q hq) 'n' (by decide) hcs
            · rw [show selectionFragment (.multiple gn₁ m₁) =
                    joinSep "-" (sortStrings (m₁.map Prod.fst)) from by
                  simp [selectionFragment, he₁],
                show selectionFragment (.multiple gn₂ m₂) =
                    joinSep "-" (sortStrings (m₂.map Prod.fst)) from by
                  simp [selectionFragment, he₂]] at h
              have hwf₁ : ∀ r ∈ sortStrings (m₁.map Prod.fst), r.data ≠ [] ∧ '-' ∉ r.data := by
                intro r hr
                have hmem : r ∈ m₁.map Prod.fst := (sortStrings_perm _).mem_iff.mp hr
                rcases List.mem_map.mp hmem with ⟨q, hq, rfl⟩
                exact ⟨isIdStr_data_ne (w₁ q hq), isIdStr_not_mem (w₁ q hq) '-' (by decide)⟩
              have hwf₂ : ∀ r ∈ sortStrings (m₂.map Prod.fst), r.data ≠ [] ∧ '-' ∉ r.data := by
                intro r hr
                have hmem : r ∈ m₂.map Prod.fst := (sortStrings_perm _).mem_iff.mp hr
                rcases List.mem_map.mp hmem with ⟨q, hq, rfl⟩
                exact ⟨isIdStr_data_ne (w₂ q hq), isIdStr_not_mem (w₂ q hq) '-' (by decide)⟩
              have hids := joinSep_inj (c := '-') rfl _ _ hwf₁ hwf₂ h
              have hperm := perm_of_sortStrings_eq hids
              intro k
              exact hperm.mem_iff

/-! ### C2: the key determines the choices -/

theorem sameSkeleton_fst : ∀ {s₁ s₂ : SelectionState}, SameSkeleton s₁ s₂ →
    s₁.map Prod.fst = s₂.map Prod.fst := by
  intro s₁ s₂ h
  induction h with
  | nil => rfl
  | cons hpq hrest ih => rw [List.map_cons, List.map_cons, hpq.1, ih]

theorem forall_mem_sortStrings {P : String → Prop} {l : List String}
    (h : ∀ r ∈ l, P r) : ∀ r ∈ sortStrings l, P r :=
  fun r hr => h r ((sortStrings_perm l).mem_iff.mp hr)

theorem sortStrings_eq_nil {l : List String} (h : sortStrings l = []) : l = [] := by
  have hp := sortStrings_perm l
  rw [h] at hp
  exact hp.symm.eq_nil

theorem parts_perm_to_choices : ∀ s₁ s₂ : SelectionState,
    StateWF s₁ → StateWF s₂ → SameSkeleton s₁ s₂ → (s₁.map Prod.fst).Nodup →
    ((s₁.map fun p => groupPart p.1 p.2).Perm (s₂.map fun p => groupPart p.1 p.2)) →
    SameChoices s₁ s₂ := by
  intro s₁
  induction s₁ with
  | nil =>
      intro s₂ _ _ hskel _ _
      cases hskel
      exact List.Forall₂.nil
  | cons p s₁2 ih =>
      intro s₂ w₁ w₂ hskel hnd hperm
      rcases hskel with _ | ⟨hpq, hrest⟩
      rename_i q s₂2
      rw [List.map_cons, List.nodup_cons] at hnd
      rw [List.map_cons, List.map_cons] at hperm
      have hwp := w₁ p (List.mem_cons_self _ _)
      have hwq := w₂ q (List.mem_cons_self _ _)
      have hmemhead : groupPart p.1 p.2 ∈
          groupPart q.1 q.2 :: (s₂2.map fun r => groupPart r.1 r.2) :=
        hperm.mem_iff.mp (List.mem_cons_self _ _)
      have hhead : groupPart p.1 p.2 = groupPart q.1 q.2 := by
        rcases List.mem_cons.mp hmemhead with h1 | h2
        · exact h1
        · exfalso
          rcases List.mem_map.mp h2 with ⟨r, hr, heq⟩
          have hwr := w₂ r (List.mem_cons_of_mem _ hr)
          have hinj := groupPart_inj hwr.1 hwp.1 heq
          apply hnd.1
          rw [sameSkeleton_fst hrest, ← hinj.1]
          exact List.mem_map_of_mem Prod.fst hr
      have hfrag := groupPart_inj hwp.1 hwq.1 hhead
      have hchoice : SelectionSameChoice p.2 q.2 :=
        selectionFragment_inj hwp.2 hwq.2 hpq.2 hfrag.2
      have hperm2 : (s₁2.map fun r => groupPart r.1 r.2).Perm
          (s₂2.map fun r => groupPart r.1 r.2) := by
        rw [hhead] at hperm
        exact hperm.cons_inv
      exact List.Forall₂.cons ⟨hpq.1, hchoice⟩
        (ih s₂2 (fun r hr => w₁ r (List.mem_cons_of_mem _ hr))
          (fun r hr => w₂ r (List.mem_cons_of_mem _ hr)) hrest hnd.2 hperm2)

theorem key_determines_choices (s₁ s₂ : SelectionState)
    (w₁ : StateWF s₁) (w₂ : StateWF s₂) (hskel : SameSkeleton s₁ s₂)
    (hnd : (s₁.map Prod.fst).Nodup)
    (h : buildOptionKeyFromSelections s₁ = buildOptionKeyFromSelections s₂) :
    SameChoices s₁ s₂ := by
  by_cases hnil : s₁ = []
  · subst hnil
    cases hskel
    exact List.Forall₂.nil
  · have hnil₂ : s₂ ≠ [] := by
      intro hh
      subst hh
      cases hskel
      exact hnil rfl
    have hwf₁ : ∀ r ∈ (s₁.map fun p => groupPart p.1 p.2),
        r.data ≠ [] ∧ '|' ∉ r.data := by
      intro r hr
      rcases List.mem_map.mp hr with ⟨p, hp, rfl⟩
      exact groupPart_wf p.1 p.2 (w₁ p hp).1 (w₁ p hp).2
    have hwf₂ : ∀ r ∈ (s₂.map fun p => groupPart p.1 p.2),
        r.data ≠ [] ∧ '|' ∉ r.data := by
      intro r hr
      rcases List.mem_map.mp hr with ⟨p, hp, rfl⟩
      exact groupPart_wf p.1 p.2 (w₂ p hp).1 (w₂ p hp).2
    have hpne₁ : (s₁.map fun p => groupPart p.1 p.2) ≠ [] :=
      fun hh => hnil (List.map_eq_nil_iff.mp hh)
    have hpne₂ : (s₂.map fun p => groupPart p.1 p.2) ≠ [] :=
      fun hh => hnil₂ (List.map_eq_nil_iff.mp hh)
    have hkey₁ : joinSep "|" (sortStrings (s₁.map fun p => groupPart p.1 p.2)) ≠ "" := by
      intro hh
      exact joinSep_ne_empty "|" (sortStrings (s₁.map fun p => groupPart p.1 p.2))
        (fun h2 => hpne₁ (sortStrings_eq_nil h2))
        (forall_mem_sortStrings (fun r hr => (hwf₁ r hr).1))
        (congrArg String.data hh)
    have hkey₂ : joinSep "|" (sortStrings (s₂.map fun p => groupPart p.1 p.2)) ≠ "" := by
      intro hh
      exact joinSep_ne_empty "|" (sortStrings (s₂.map fun p => groupPart p.1 p.2))
        (fun h2 => hpne₂ (sortStrings_eq_nil h2))
        (forall_mem_sortStrings (fun r hr => (hwf₂ r hr).1))
        (congrArg String.data hh)
    have hb₁ : ¬(s₁.isEmpty = true) := fun hh => hnil (List.isEmpty_iff.mp hh)
    have hb₂ : ¬(s₂.isEmpty = true) := fun hh => hnil₂ (List.isEmpty_iff.mp hh)
    simp only [buildOptionKeyFromSelections] at h
    rw [if_neg hb₁, if_neg hb₂, if_neg hkey₁, if_neg hkey₂] at h
    have hsorted := joinSep_inj (c := '|') rfl _ _
      (forall_mem_sortStrings hwf₁) (forall_mem_sortStrings hwf₂) h
    exact parts_perm_to_choices s₁ s₂ w₁ w₂ hskel hnd (perm_of_sortStrings_eq hsorted)

/-- C2 (counterexample): with an option whose id is the literal string
`"none"` (ids inside each state still distinct), choosing that option and
choosing nothing in the same single-type group are selection states over the
same group skeleton that differ in the group's chosen option, yet
`buildOptionKeyFromSelections` maps both to the identical key `"1:none"`. -/
theorem C2_counterexample :
    buildOptionKeyFromSelections cexS1 = buildOptionKeyFromSelections cexS2 ∧
    SameSkeleton cexS1 cexS2 ∧ ¬ SameChoices cexS1 cexS2 := by
  refine ⟨by decide, List.Forall₂.cons ⟨rfl, trivial⟩ List.Forall₂.nil, ?_⟩
  intro hc
  have hc2 : List.Forall₂ (fun p q => p.1 = q.1 ∧ SelectionSameChoice p.2 q.2)
      [("1", Selection.single "g" (some cexNoneOpt))]
      [("1", Selection.single "g" none)] := hc
  rcases hc2 with _ | ⟨hpq, _⟩
  simpa [SelectionSameChoice, cexNoneOpt] using hpq.2

/-- C2 (amended): restricted to id strings as the page actually produces them
(nonempty all-digit strings obtained by stringifying numeric ids), the key is
injective: two selection states over the same menu item (same group ids in
the same stored order, with matching selection types and duplicate-free group
ids) that differ in at least one group's chosen option id(s) receive
different key strings from `buildOptionKeyFromSelections`. -/
theorem C2_key_injective (s₁ s₂ : SelectionState)
    (w₁ : StateWF s₁) (w₂ : StateWF s₂) (hskel : SameSkeleton s₁ s₂)
    (hnd : (s₁.map Prod.fst).Nodup)
    (hdiff : ¬ SameChoices s₁ s₂) :
    buildOptionKeyFromSelections s₁ ≠ buildOptionKeyFromSelections s₂ :=
  fun h => hdiff (key_determines_choices s₁ s₂ w₁ w₂ hskel hnd h)

theorem C2_key_injective_witness :
    (StateWF idS1 ∧ StateWF idS2 ∧ SameSkeleton idS1 idS2 ∧
      (idS1.map Prod.fst).Nodup ∧ ¬ SameChoices idS1 idS2) ∧
    buildOptionKeyFromSelections idS1 ≠ buildOptionKeyFromSelections idS2 := by
  have w₁ : StateWF idS1 := by
    intro p hp
    have hp2 : p = ("1", Selection.single "g" (some idOpt2)) := by
      simpa [idS1] using hp
    subst hp2
    exact ⟨⟨by decide, by decide⟩, ⟨by decide, by decide⟩⟩
  have w₂ : StateWF idS2 := by
    intro p hp
    have hp2 : p = ("1", Selection.single "g" none) := by
      simpa [idS2] using hp
    subst hp2
    exact ⟨⟨by decide, by decide⟩, trivial⟩
  have hskel : SameSkeleton idS1 idS2 :=
    List.Forall₂.cons ⟨rfl, trivial⟩ List.Forall₂.nil
  have hnd : (idS1.map Prod.fst).Nodup := by decide
  have hdiff : ¬ SameChoices idS1 idS2 := by
    intro hc
    have hc2 : List.Forall₂ (fun p q => p.1 = q.1 ∧ SelectionSameChoice p.2 q.2)
        [("1", Selection.single "g" (some idOpt2))]
        [("1", Selection.single "g" none)] := hc
    rcases hc2 with _ | ⟨hpq, _⟩
    simpa [SelectionSameChoice] using hpq.2
  exact ⟨⟨w₁, w₂, hskel, hnd, hdiff⟩,
    C2_key_injective idS1 idS2 w₁ w₂ hskel hnd hdiff⟩

end POS
